import Mathlib

/-!
Verification of the travelbee hotel-price scanner (src/main.py, src/amadeus_client.py).

The development shallowly embeds the data model and the algorithms of the
repository:

* JSON values returned by the hotel-offer-search collaborator are modelled by
  the inductive type `JValue`; Python `None` and JSON `null` are both
  `JValue.null` (CPython's json module maps JSON null to None).
* `summarize_offer_price`, `parse_search_response` and `median` embed the
  functions of the same names in src/main.py.  Fallible Python code (code that
  can raise) is modelled with `Option`/`Except`: a caught exception becomes
  `none`, an uncaught exception becomes `Except.error ()`.
* The proleptic-Gregorian calendar used by `datetime.date` is embedded by
  ordinal day numbers (`toOrdinal`, day 1 = 0001-01-01, exactly
  `date.toordinal()`), with `weekday d = (d - 1) % 7` (Monday = 0).
* The per-place coarse scan, refinement scan and result emission of `main`
  (src/main.py lines 163-232) are embedded by `coarseScan`, `refineScan`,
  `placeSearch` (response level, in `Except`) and by `pureScan`/`purePlace`
  (summary level, after parsing).

Money amounts (Python floats produced by `float(price)`) are modelled by `ℚ`.
-/

namespace Travelbee

/-- JSON values (the shape produced by `requests.Response.json()`).  Python
`None` and JSON `null` are both represented by `null`.  Objects are ordered
key/value lists; Python dicts have unique keys, lookup takes the first match. -/
inductive JValue where
  | null
  | bool (b : Bool)
  | num (q : ℚ)
  | str (s : String)
  | arr (xs : List JValue)
  | obj (kvs : List (String × JValue))

/-- Python subscript `v[k]` with a string key: succeeds exactly on a dict that
contains the key; on anything else Python raises (KeyError / TypeError), which
is modelled by `none`. -/
def pySub (v : JValue) (k : String) : Option JValue :=
  match v with
  | .obj kvs => kvs.lookup k
  | _ => none

/-- Python `v.get(k, dflt)` for JSON values: on a dict it returns the stored
value or the default, on anything else `.get` raises AttributeError (`none`). -/
def pyGet (v : JValue) (k : String) (dflt : JValue) : Option JValue :=
  match v with
  | .obj kvs => some ((kvs.lookup k).getD dflt)
  | _ => none

/-- Python iteration `for x in v` over a JSON value: lists yield their
elements, strings yield their one-character substrings, dicts yield their keys;
`null`, booleans and numbers are not iterable and raise TypeError (`none`). -/
def pyIter (v : JValue) : Option (List JValue) :=
  match v with
  | .arr xs => some xs
  | .str s => some (s.data.map (fun c => JValue.str (String.mk [c])))
  | .obj kvs => some (kvs.map (fun kv => JValue.str kv.1))
  | _ => none

/-- Value of a list of decimal digit characters. -/
def digitsToNat (cs : List Char) : Nat :=
  cs.foldl (fun acc c => acc * 10 + (c.toNat - 48)) 0

/-- Python `float(s)` on a decimal string literal: optional sign, integer
digits, optional fraction (at least one digit overall); anything else raises
ValueError (`none`).  (Exponents, inf/nan and surrounding whitespace, which
CPython also accepts, do not occur in the API's price strings and are omitted.) -/
def parseDecimal (s : String) : Option ℚ :=
  let cs := s.data
  let sign : ℚ := if cs.head? = some '-' then -1 else 1
  let cs := if cs.head? = some '-' ∨ cs.head? = some '+' then cs.drop 1 else cs
  let intPart := cs.takeWhile (fun c => c.isDigit)
  let rest := cs.drop intPart.length
  if rest = [] then
    if intPart = [] then none else some (sign * (digitsToNat intPart : ℚ))
  else if rest.head? = some '.' then
    let frac := rest.drop 1
    if frac.all (fun c => c.isDigit) ∧ (intPart ≠ [] ∨ frac ≠ []) then
      some (sign * ((digitsToNat intPart : ℚ) + (digitsToNat frac : ℚ) / (10 : ℚ) ^ frac.length))
    else none
  else none

/-- Python `float(v)` applied to a JSON value: numbers convert, booleans
convert (True = 1.0), numeric strings parse; `None`, lists and dicts raise
TypeError (`none`). -/
def pyFloat (v : JValue) : Option ℚ :=
  match v with
  | .num q => some q
  | .bool b => some (if b then 1 else 0)
  | .str s => parseDecimal s
  | _ => none

/-- Embeds `summarize_offer_price` (src/main.py lines 52-61): returns
`(float(offer["price"]["total"]), offer["price"]["currency"])`; every raised
exception is caught and yields `None` (`none`).  The currency value is kept
as-is (it only has to be present, the source never converts it). -/
def summarize_offer_price (offer : JValue) : Option (ℚ × JValue) :=
  match pySub offer "price" with
  | none => none
  | some priceObj =>
    match pySub priceObj "total", pySub priceObj "currency" with
    | some totalV, some currency =>
      match pyFloat totalV with
      | some t => some (t, currency)
      | none => none
    | _, _ => none

/-- Embeds lines 71-77 of src/main.py: `hotel.get("hotel", {}).get("hotelId")`
and `...get("name")` inside `try/except: pass`, with both variables
pre-initialised to `None`.  A raised AttributeError leaves both at `None`. -/
def extractIdName (hotel : JValue) : JValue × JValue :=
  match pyGet hotel "hotel" (JValue.obj []) with
  | none => (JValue.null, JValue.null)
  | some h =>
    match pyGet h "hotelId" JValue.null, pyGet h "name" JValue.null with
    | some i, some n => (i, n)
    | _, _ => (JValue.null, JValue.null)

/-- Embeds line 78 of src/main.py:
`offers = hotel.get("offers", []) if isinstance(hotel, dict) else []`. -/
def extractOffers (hotel : JValue) : JValue :=
  match hotel with
  | .obj kvs => (kvs.lookup "offers").getD (JValue.arr [])
  | _ => JValue.arr []

/-- Embeds line 87 of src/main.py, `off.get("id")` (only reached when
`summarize_offer_price off` succeeded, hence `off` is a dict there). -/
def offId (off : JValue) : JValue :=
  match off with
  | .obj kvs => (kvs.lookup "id").getD JValue.null
  | _ => JValue.null

/-- One iteration of the best-offer loop of `parse_search_response`
(src/main.py lines 81-87): an unsummarizable offer is skipped (`continue`),
otherwise the best becomes `(total, currency, off.get("id"))` when there was
no best yet or the total is strictly smaller. -/
def bestStep (best : Option (ℚ × JValue × JValue)) (off : JValue) :
    Option (ℚ × JValue × JValue) :=
  match summarize_offer_price off with
  | none => best
  | some tc =>
    match best with
    | none => some (tc.1, tc.2, offId off)
    | some b => if tc.1 < b.1 then some (tc.1, tc.2, offId off) else best

/-- Embeds the best-offer loop of `parse_search_response` (src/main.py lines
80-87): fold `bestStep` over the hotel's offers starting from `None`. -/
def bestOffer (offs : List JValue) : Option (ℚ × JValue × JValue) :=
  offs.foldl bestStep none

/-- One hotel-level summary dict produced by `parse_search_response`
(src/main.py lines 89-95). -/
structure HotelSummary where
  hotelId : JValue
  hotelName : JValue
  offerId : JValue
  total : ℚ
  currency : JValue

/-- Processing of one element of `resp["data"]` inside `parse_search_response`
(src/main.py lines 70-95).  Errors exactly when the hotel's `offers` value is
not iterable (an uncaught TypeError); returns `ok none` when the hotel has no
parseable priced offer (it is then not appended to the output). -/
def processHotel (hotel : JValue) : Except Unit (Option HotelSummary) :=
  match pyIter (extractOffers hotel) with
  | none => Except.error ()
  | some offs =>
    Except.ok ((bestOffer offs).map (fun b =>
      ⟨(extractIdName hotel).1, (extractIdName hotel).2, b.2.2, b.1, b.2.1⟩))

/-- The successful-result part of `processHotel` (used to state what
`parse_search_response` outputs). -/
def processHotelOpt (hotel : JValue) : Option HotelSummary :=
  match processHotel hotel with
  | Except.ok s => s
  | Except.error _ => none

/-- The `for hotel in data` loop of `parse_search_response` (src/main.py lines
70-95), threading the output list `out`. -/
def parseHotels : List JValue → List HotelSummary → Except Unit (List HotelSummary)
  | [], out => Except.ok out
  | h :: t, out =>
    match processHotel h with
    | Except.error e => Except.error e
    | Except.ok (some x) => parseHotels t (out ++ [x])
    | Except.ok none => parseHotels t out

/-- Embeds `parse_search_response` (src/main.py lines 63-96).  `resp.get` on a
non-dict raises AttributeError and `for hotel in data` on a non-iterable
`data` raises TypeError; both uncaught exceptions are `Except.error ()`. -/
def parse_search_response (resp : JValue) : Except Unit (List HotelSummary) :=
  match resp with
  | .obj kvs =>
    match pyIter ((kvs.lookup "data").getD (JValue.arr [])) with
    | none => Except.error ()
    | some hotels => parseHotels hotels []
  | _ => Except.error ()

/-- Embeds `median` (src/main.py lines 98-105) over `ℚ` (Python floats);
`float("nan")` for the empty list is modelled by `none`.  `s[mid]` is written
`s.getD mid 0`; the indices are in bounds whenever they are used. -/
def median (values : List ℚ) : Option ℚ :=
  let s := List.insertionSort (fun a b => a ≤ b) values
  let n := s.length
  if n = 0 then none
  else
    let mid := n / 2
    if n % 2 = 1 then some (s.getD mid 0)
    else some ((s.getD (mid - 1) 0 + s.getD mid 0) / 2)

/-- Gregorian leap year (as in `datetime`). -/
def isLeap (y : Int) : Bool := (y % 4 == 0 && y % 100 != 0) || (y % 400 == 0)

/-- Days in the months strictly before month `m` of year `y` (m in 1..12). -/
def daysBeforeMonth (y m : Int) : Int :=
  let base :=
    if m ≤ 1 then 0 else if m = 2 then 31 else if m = 3 then 59 else if m = 4 then 90
    else if m = 5 then 120 else if m = 6 then 151 else if m = 7 then 181 else if m = 8 then 212
    else if m = 9 then 243 else if m = 10 then 273 else if m = 11 then 304 else 334
  if 3 ≤ m ∧ isLeap y then base + 1 else base

/-- Proleptic-Gregorian ordinal of the date `(y, m, d)`: the value of Python's
`date(y, m, d).toordinal()` (0001-01-01 is day 1). -/
def toOrdinal (y m d : Int) : Int :=
  365 * (y - 1) + (y - 1).fdiv 4 - (y - 1).fdiv 100 + (y - 1).fdiv 400 + daysBeforeMonth y m + d

/-- Python `date.weekday()` on an ordinal: Monday = 0 ... Sunday = 6. -/
def weekday (d : Int) : Int := (d - 1) % 7

/-- Embeds `date_range(start, end, 1)` (src/main.py lines 22-26) on ordinals:
all days from `start` to `e` inclusive, in order. -/
def date_range (start e : Int) : List Int :=
  (List.range (e + 1 - start).toNat).map (fun (i : Nat) => start + (i : Int))

/-- Ordinal of the last day of month `lastMonth` of `year`: embeds
`date(year, last_month, 1) + relativedelta(months=1) - timedelta(days=1)`
(src/main.py lines 43-44). -/
def lastDayOfLastMonth (year lastMonth : Int) : Int :=
  let firstOfNext := if lastMonth = 12 then toOrdinal (year + 1) 1 1 else toOrdinal year (lastMonth + 1) 1
  firstOfNext - 1

/-- Embeds `sliding_windows` (src/main.py lines 32-50) on ordinals.  `months`
is the configured month list (nonempty in every configuration; `months[0]` and
`months[-1]` are written `headD`/`getLastD`). -/
def sliding_windows (year : Int) (months : List Int) (los : Int)
    (fullDailyScan : Bool) (coarseDows : List Int) : List Int :=
  let start := toOrdinal year (months.headD 1) 1
  let lastDay := lastDayOfLastMonth year (months.getLastD 1)
  let e := lastDay - (los - 1)
  if fullDailyScan then date_range start e
  else (date_range start e).filter (fun d => decide (weekday d ∈ coarseDows))

/-- Embeds the dedup loop of `main` (src/main.py lines 151-155): walk the ids,
keep an id the first time it is seen. -/
def dedupFirst : List String → List String → List String
  | _, [] => []
  | seen, h :: t => if h ∈ seen then dedupFirst seen t else h :: dedupFirst (h :: seen) t

/-- Embeds lines 151-156 of src/main.py: deduplicate preserving first-seen
order, then truncate to `max_hotels`. -/
def shortlistIds (ids : List String) (maxHotels : Nat) : List String :=
  (dedupFirst [] ids).take maxHotels

/-- The running global minimum of the per-place scan, the tuple `best` of
src/main.py line 165/190/216 (its check-in date as an ordinal).  The Python
pair of states `best_total = math.inf, best = None` / `best_total = t, best =
(...)` is `none` / `some b` with `b.total = t`. -/
structure Best where
  checkIn : Int
  hotelId : JValue
  hotelName : JValue
  offerId : JValue
  total : ℚ
  currency : JValue

/-- The tuple built at src/main.py lines 190 and 216 from a date and that
date's winner. -/
def mkBest (d : Int) (w : HotelSummary) : Best :=
  ⟨d, w.hotelId, w.hotelName, w.offerId, w.total, w.currency⟩

/-- Embeds `min(totals_for_date, key=lambda x: x["total"])` (src/main.py lines
182 and 208): the first element of minimal total, `none` on the empty list
(Python would raise there, but the source only calls it on nonempty lists). -/
def minByTotal : List HotelSummary → Option HotelSummary
  | [] => none
  | h :: t => some (t.foldl (fun m x => if x.total < m.total then x else m) h)

/-- Embeds lines 180-190 / 207-216 of src/main.py for one scanned date: if the
date produced any summaries, take the date's winner and update the running
minimum when the winner's total is strictly smaller (ties keep the incumbent). -/
def stepDate (st : Option Best) (d : Int) (summaries : List HotelSummary) : Option Best :=
  match minByTotal summaries with
  | none => st
  | some w =>
    match st with
    | none => some (mkBest d w)
    | some b => if w.total < b.total then some (mkBest d w) else some b

/-- The batch loop of one coarse-scan date (src/main.py lines 172-179): a
`None` response is skipped with `continue`, any other response is parsed (a
parse error aborts the run). -/
def scanDateCoarse : List JValue → List HotelSummary → Except Unit (List HotelSummary)
  | [], acc => Except.ok acc
  | resp :: rest, acc =>
    match resp with
    | .null => scanDateCoarse rest acc
    | r =>
      match parse_search_response r with
      | Except.error e => Except.error e
      | Except.ok parsed => scanDateCoarse rest (acc ++ parsed)

/-- The batch loop of one refinement-scan date (src/main.py lines 202-206):
the response is parsed unconditionally — there is no `None` check here, so a
`None` response reaches `parse_search_response` and raises. -/
def scanDateRefine : List JValue → List HotelSummary → Except Unit (List HotelSummary)
  | [], acc => Except.ok acc
  | resp :: rest, acc =>
    match parse_search_response resp with
    | Except.error e => Except.error e
    | Except.ok parsed => scanDateRefine rest (acc ++ parsed)

/-- The coarse scan over the candidate dates (src/main.py lines 171-190).
`oracle d` is the list of collaborator responses for the batches queried on
date `d` (`JValue.null` = the client returned `None`). -/
def coarseScan (oracle : Int → List JValue) : List Int → Option Best → Except Unit (Option Best)
  | [], st => Except.ok st
  | d :: rest, st =>
    match scanDateCoarse (oracle d) [] with
    | Except.error e => Except.error e
    | Except.ok summaries => coarseScan oracle rest (stepDate st d summaries)

/-- The refinement scan over the refinement window (src/main.py lines 201-216). -/
def refineScan (oracle : Int → List JValue) : List Int → Option Best → Except Unit (Option Best)
  | [], st => Except.ok st
  | d :: rest, st =>
    match scanDateRefine (oracle d) [] with
    | Except.error e => Except.error e
    | Except.ok summaries => refineScan oracle rest (stepDate st d summaries)

/-- The whole per-place search (src/main.py lines 163-216): coarse scan; if it
found no winner, skip refinement and emit nothing; otherwise refine on every
single day in the symmetric window of `refineN` days around the winner's date.
`oracle`/`oracleR` give the collaborator's responses during the coarse and the
refinement pass (the dates overlapping the coarse window are re-queried, not
deduplicated). -/
def placeSearch (oracle oracleR : Int → List JValue) (coarseDates : List Int)
    (refineN : Int) : Except Unit (Option Best) :=
  match coarseScan oracle coarseDates none with
  | Except.error e => Except.error e
  | Except.ok none => Except.ok none
  | Except.ok (some b0) =>
    refineScan oracleR (date_range (b0.checkIn - refineN) (b0.checkIn + refineN)) (some b0)

/-- The scan at the summary level: `f d` is the list of summaries parsed for
date `d` (all batches concatenated).  This is `coarseScan`/`refineScan` after
successful parsing (see `coarseScan_pure`/`refineScan_pure`). -/
def pureScan (f : Int → List HotelSummary) : List Int → Option Best → Option Best
  | [], st => st
  | d :: rest, st => pureScan f rest (stepDate st d (f d))

/-- `placeSearch` at the summary level: coarse scan from `none`, then (when a
winner exists) the refinement scan over the symmetric window around its date. -/
def purePlace (f fR : Int → List HotelSummary) (coarseDates : List Int) (refineN : Int) :
    Option Best :=
  match pureScan f coarseDates none with
  | none => none
  | some b0 => pureScan fR (date_range (b0.checkIn - refineN) (b0.checkIn + refineN)) (some b0)

/-- The per-date winners of a scan, in scan order: date `d` contributes
`(d, minByTotal (f d))` when the date produced any summaries. -/
def dateWinners (f : Int → List HotelSummary) (dates : List Int) : List (Int × HotelSummary) :=
  dates.filterMap (fun d => (minByTotal (f d)).map (fun w => (d, w)))

/-- First-strict-improvement fold over per-date winners; `pureScan` computes
exactly this fold over `dateWinners` (lemma `pureScan_eq_winnersFold`). -/
def winnersFold : Option Best → List (Int × HotelSummary) → Option Best
  | st, [] => st
  | none, dw :: rest => winnersFold (some (mkBest dw.1 dw.2)) rest
  | some b, dw :: rest =>
    winnersFold (if dw.2.total < b.total then some (mkBest dw.1 dw.2) else some b) rest

/-- One emitted best-for-place record (src/main.py lines 218-232), with dates
as ordinals. -/
structure EmittedResult where
  checkIn : Int
  checkOut : Int
  hotelId : JValue
  hotelName : JValue
  offerId : JValue
  total : ℚ
  currency : JValue

/-- Embeds the result assembly of src/main.py lines 218-232:
`check_out = check_in + timedelta(days=los)`. -/
def emitResult (los : Int) (b : Best) : EmittedResult :=
  ⟨b.checkIn, b.checkIn + los, b.hotelId, b.hotelName, b.offerId, b.total, b.currency⟩

/-- A concrete summary used by the witness scenarios. -/
def wQ : HotelSummary := ⟨JValue.null, JValue.null, JValue.null, 150, JValue.null⟩

/-- A one-date oracle at the summary level: date 1 yields `wQ`. -/
def wF : Int → List HotelSummary := fun d => if d = 1 then [wQ] else []

/-- The empty summary-level oracle. -/
def wFe : Int → List HotelSummary := fun _ => []

/-- The best reached by scanning `wF` over the single date 1. -/
def wB : Best := ⟨1, JValue.null, JValue.null, JValue.null, 150, JValue.null⟩

theorem mem_date_range {s e d : Int} : d ∈ date_range s e ↔ s ≤ d ∧ d ≤ e := by
  simp only [date_range, List.mem_map, List.mem_range]
  constructor
  · rintro ⟨i, hi, rfl⟩
    omega
  · rintro ⟨h1, h2⟩
    exact ⟨(d - s).toNat, by omega, by omega⟩

theorem length_date_range (s e : Int) : (date_range s e).length = (e + 1 - s).toNat := by
  simp [date_range]

theorem head?_date_range {s e : Int} (h : date_range s e ≠ []) :
    (date_range s e).head? = some s := by
  unfold date_range at h ⊢
  rcases hn : (e + 1 - s).toNat with _ | n
  · rw [hn] at h
    simp at h
  · rw [List.range_succ_eq_map]
    simp

theorem sliding_windows_true_eq (year : Int) (months : List Int) (los : Int)
    (dows : List Int) :
    sliding_windows year months los true dows =
      date_range (toOrdinal year (months.headD 1) 1)
        (lastDayOfLastMonth year (months.getLastD 1) - (los - 1)) := rfl

theorem sliding_windows_false_eq (year : Int) (months : List Int) (los : Int)
    (dows : List Int) :
    sliding_windows year months los false dows =
      (date_range (toOrdinal year (months.headD 1) 1)
        (lastDayOfLastMonth year (months.getLastD 1) - (los - 1))).filter
        (fun d => decide (weekday d ∈ dows)) := rfl

/-- C5: every candidate check-in date generated by the date-window generator
lies at or after the first day of the first configured month, and the date
plus (length-of-stay − 1) nights never exceeds the last day of the last
configured month; moreover the generated window (before weekday filtering,
i.e. under the full-daily-scan flag) indeed starts at the first day of the
first configured month. -/
theorem C5_window_bounds (year : Int) (months : List Int) (los : Int)
    (full : Bool) (dows : List Int) :
    (∀ d ∈ sliding_windows year months los full dows,
       toOrdinal year (months.headD 1) 1 ≤ d ∧
       d + (los - 1) ≤ lastDayOfLastMonth year (months.getLastD 1)) ∧
    (sliding_windows year months los true dows ≠ [] →
       (sliding_windows year months los true dows).head? =
         some (toOrdinal year (months.headD 1) 1)) := by
  constructor
  · intro d hd
    have hmem : d ∈ date_range (toOrdinal year (months.headD 1) 1)
        (lastDayOfLastMonth year (months.getLastD 1) - (los - 1)) := by
      cases full
      · rw [sliding_windows_false_eq] at hd
        exact (List.mem_filter.mp hd).1
      · rw [sliding_windows_true_eq] at hd
        exact hd
    have := mem_date_range.mp hmem
    omega
  · intro hne
    rw [sliding_windows_true_eq] at hne ⊢
    exact head?_date_range hne

/-- C5 witness: the configuration year 2025, months [6], seven nights, full
daily scan. -/
theorem C5_window_bounds_witness :
    (toOrdinal 2025 6 1 ≤ toOrdinal 2025 6 1 ∧
     toOrdinal 2025 6 1 + (7 - 1) ≤ lastDayOfLastMonth 2025 6) ∧
    (sliding_windows 2025 [6] 7 true []).head? = some (toOrdinal 2025 6 1) := by
  constructor
  · exact (C5_window_bounds 2025 [6] 7 true []).1 (toOrdinal 2025 6 1) (by decide)
  · exact (C5_window_bounds 2025 [6] 7 true []).2 (by decide)

/-- C6: with the full-daily-scan flag disabled every generated date's weekday
belongs to the configured weekday set; with the flag enabled every day of the
computed range is generated. -/
theorem C6_weekday_filter (year : Int) (months : List Int) (los : Int) (dows : List Int) :
    (∀ d ∈ sliding_windows year months los false dows, weekday d ∈ dows) ∧
    (∀ d, toOrdinal year (months.headD 1) 1 ≤ d →
       d ≤ lastDayOfLastMonth year (months.getLastD 1) - (los - 1) →
       d ∈ sliding_windows year months los true dows) := by
  constructor
  · intro d hd
    rw [sliding_windows_false_eq] at hd
    exact of_decide_eq_true (List.mem_filter.mp hd).2
  · intro d h1 h2
    rw [sliding_windows_true_eq]
    exact mem_date_range.mpr ⟨h1, h2⟩

/-- C6 witness: June 2025 with weekday set {Mon, Thu, Sat}: June 2nd 2025 (a
Monday) is generated and its weekday is in the set; with the flag enabled
June 1st is generated. -/
theorem C6_weekday_filter_witness :
    weekday (toOrdinal 2025 6 2) ∈ [0, 3, 5] ∧
    toOrdinal 2025 6 1 ∈ sliding_windows 2025 [6] 7 true [0, 3, 5] := by
  constructor
  · exact (C6_weekday_filter 2025 [6] 7 [0, 3, 5]).1 (toOrdinal 2025 6 2) (by decide)
  · exact (C6_weekday_filter 2025 [6] 7 [0, 3, 5]).2 (toOrdinal 2025 6 1) (by decide) (by decide)

theorem dedupFirst_sublist (seen l : List String) : List.Sublist (dedupFirst seen l) l := by
  induction l generalizing seen with
  | nil => simp [dedupFirst]
  | cons h t ih =>
    by_cases hmem : h ∈ seen
    · simp only [dedupFirst, if_pos hmem]
      exact (ih seen).trans (List.sublist_cons_self h t)
    · simp only [dedupFirst, if_neg hmem]
      exact (ih (h :: seen)).cons₂ h

theorem mem_dedupFirst {seen l : List String} {x : String} :
    x ∈ dedupFirst seen l ↔ x ∈ l ∧ x ∉ seen := by
  induction l generalizing seen with
  | nil => simp [dedupFirst]
  | cons h t ih =>
    by_cases hmem : h ∈ seen
    · simp only [dedupFirst, if_pos hmem, ih, List.mem_cons]
      constructor
      · rintro ⟨hx, hns⟩
        exact ⟨Or.inr hx, hns⟩
      · rintro ⟨hx | hx, hns⟩
        · exact absurd (hx ▸ hmem) hns
        · exact ⟨hx, hns⟩
    · simp only [dedupFirst, if_neg hmem, List.mem_cons, ih]
      by_cases hxh : x = h
      · subst hxh
        simp [hmem]
      · constructor
        · rintro (rfl | ⟨hx, hns⟩)
          · exact ⟨Or.inl rfl, hmem⟩
          · exact ⟨Or.inr hx, fun hc => hns (Or.inr hc)⟩
        · rintro ⟨rfl | hx, hns⟩
          · exact absurd rfl hxh
          · exact Or.inr ⟨hx, fun hc => hc.elim hxh hns⟩

theorem dedupFirst_nodup (seen l : List String) : (dedupFirst seen l).Nodup := by
  induction l generalizing seen with
  | nil => simp [dedupFirst]
  | cons h t ih =>
    by_cases hmem : h ∈ seen
    · simpa [dedupFirst, hmem] using ih seen
    · simp only [dedupFirst, if_neg hmem]
      refine List.nodup_cons.mpr ⟨fun hc => ?_, ih (h :: seen)⟩
      exact (mem_dedupFirst.mp hc).2 (List.mem_cons_self h seen)

theorem dedupFirst_congr (l : List String) : ∀ s₁ s₂ : List String,
    (∀ y, y ∈ s₁ ↔ y ∈ s₂) → dedupFirst s₁ l = dedupFirst s₂ l := by
  induction l with
  | nil => intro s₁ s₂ _; rfl
  | cons h t ih =>
    intro s₁ s₂ hiff
    by_cases hmem : h ∈ s₁
    · rw [dedupFirst, if_pos hmem, dedupFirst, if_pos ((hiff h).mp hmem), ih s₁ s₂ hiff]
    · rw [dedupFirst, if_neg hmem, dedupFirst, if_neg (fun hc => hmem ((hiff h).mpr hc))]
      congr 1
      refine ih (h :: s₁) (h :: s₂) (fun y => ?_)
      simp [hiff y]

theorem dedupFirst_filter (x : String) : ∀ (l seen : List String),
    dedupFirst (x :: seen) l = dedupFirst seen (l.filter (fun y => decide (y ≠ x))) := by
  intro l
  induction l with
  | nil => intro seen; rfl
  | cons h t ih =>
    intro seen
    by_cases hx : h = x
    · subst hx
      rw [dedupFirst, if_pos (List.mem_cons_self h seen)]
      have hf : (h :: t).filter (fun y => decide (y ≠ h)) = t.filter (fun y => decide (y ≠ h)) := by
        simp [List.filter_cons]
      rw [hf]
      exact ih seen
    · have hf : (h :: t).filter (fun y => decide (y ≠ x)) =
          h :: t.filter (fun y => decide (y ≠ x)) := by
        simp [List.filter_cons, hx]
      rw [hf]
      by_cases hmem : h ∈ seen
      · rw [dedupFirst, if_pos (List.mem_cons_of_mem x hmem), dedupFirst, if_pos hmem]
        exact ih seen
      · have hns : h ∉ x :: seen := fun hc => (List.mem_cons.mp hc).elim hx hmem
        rw [dedupFirst, if_neg hns, dedupFirst, if_neg hmem]
        congr 1
        rw [← ih (h :: seen)]
        refine dedupFirst_congr t (h :: x :: seen) (x :: h :: seen) (fun y => ?_)
        simp
        tauto

/-- C7: the shortlist (deduplication then capping) contains each identifier at
most once, is a subsequence of the returned identifier list (relative order
preserved), never exceeds the configured cap; deduplication loses no
identifier, and it keeps first occurrences: the first identifier stays in
front and deduplication recurses on the tail with the later duplicates of it
removed. -/
theorem C7_shortlist_dedup_cap :
    (∀ (ids : List String) (maxH : Nat), (shortlistIds ids maxH).Nodup) ∧
    (∀ (ids : List String) (maxH : Nat), List.Sublist (shortlistIds ids maxH) ids) ∧
    (∀ (ids : List String) (maxH : Nat), (shortlistIds ids maxH).length ≤ maxH) ∧
    (∀ (ids : List String) (x : String), x ∈ dedupFirst [] ids ↔ x ∈ ids) ∧
    (∀ (x : String) (l : List String),
       dedupFirst [] (x :: l) = x :: dedupFirst [] (l.filter (fun y => decide (y ≠ x)))) := by
  refine ⟨fun ids maxH => ?_, fun ids maxH => ?_, fun ids maxH => ?_, fun ids x => ?_, fun x l => ?_⟩
  · exact (dedupFirst_nodup [] ids).sublist (List.take_sublist maxH (dedupFirst [] ids))
  · exact (List.take_sublist maxH (dedupFirst [] ids)).trans (dedupFirst_sublist [] ids)
  · exact List.length_take_le maxH (dedupFirst [] ids)
  · simp [mem_dedupFirst]
  · rw [dedupFirst, if_neg (List.not_mem_nil x), dedupFirst_filter x l []]

/-- C8: the median of [10,20,30] is 20, the median of [10,20] is 15, the
median of the empty list is the undefined marker (Python NaN, modelled `none`)
and no input fails; for odd length the median is the middle element of the
sorted values and for even nonempty length the average of the two middle
sorted elements. -/
theorem C8_median_spec :
    median [10, 20, 30] = some 20 ∧ median [10, 20] = some 15 ∧ median [] = none ∧
    (∀ l : List ℚ, median l = none ↔ l = []) ∧
    (∀ l : List ℚ, l.length % 2 = 1 →
       median l = some ((List.insertionSort (fun a b => a ≤ b) l).getD (l.length / 2) 0)) ∧
    (∀ l : List ℚ, l ≠ [] → l.length % 2 = 0 →
       median l = some (((List.insertionSort (fun a b => a ≤ b) l).getD (l.length / 2 - 1) 0 +
         (List.insertionSort (fun a b => a ≤ b) l).getD (l.length / 2) 0) / 2)) := by
  refine ⟨by norm_num [median, List.insertionSort, List.orderedInsert],
    by norm_num [median, List.insertionSort, List.orderedInsert], rfl,
    fun l => ?_, fun l hodd => ?_, fun l hne heven => ?_⟩
  · constructor
    · intro h
      by_contra hne
      have hlen : l.length ≠ 0 := fun hc => hne (List.length_eq_zero.mp hc)
      simp only [median, List.length_insertionSort] at h
      rw [if_neg hlen] at h
      split at h <;> simp at h
    · rintro rfl
      rfl
  · have hlen : l.length ≠ 0 := by omega
    simp only [median, List.length_insertionSort]
    rw [if_neg hlen, if_pos hodd]
  · have hlen : l.length ≠ 0 := fun hc => hne (List.length_eq_zero.mp hc)
    have hodd : ¬ l.length % 2 = 1 := by omega
    simp only [median, List.length_insertionSort]
    rw [if_neg hlen, if_neg hodd]

/-- C8 witness: the even branch applied to the concrete list [10, 20]. -/
theorem C8_median_spec_witness :
    median [10, 20] = some (((List.insertionSort (fun a b => a ≤ b) [(10 : ℚ), 20]).getD 0 0 +
      (List.insertionSort (fun a b => a ≤ b) [(10 : ℚ), 20]).getD 1 0) / 2) :=
  C8_median_spec.2.2.2.2.2 [10, 20] (by simp) (by decide)

/-- C9: in every emitted best-for-place record the check-out date is the
check-in date plus the configured length of stay in nights. -/
theorem C9_checkout_invariant : ∀ (los : Int) (b : Best),
    (emitResult los b).checkOut = (emitResult los b).checkIn + los := fun _ _ => rfl

theorem minFold_le (t : List HotelSummary) : ∀ h : HotelSummary,
    (t.foldl (fun m x => if x.total < m.total then x else m) h).total ≤ h.total ∧
    ∀ x ∈ t, (t.foldl (fun m x => if x.total < m.total then x else m) h).total ≤ x.total := by
  induction t with
  | nil => exact fun h => ⟨le_refl _, by simp⟩
  | cons a t ih =>
    intro h
    obtain ⟨ih1, ih2⟩ := ih (if a.total < h.total then a else h)
    have hle : (if a.total < h.total then a else h).total ≤ h.total := by
      by_cases hc : a.total < h.total
      · rw [if_pos hc]; exact le_of_lt hc
      · rw [if_neg hc]
    have hlea : (if a.total < h.total then a else h).total ≤ a.total := by
      by_cases hc : a.total < h.total
      · rw [if_pos hc]
      · rw [if_neg hc]; exact le_of_not_lt hc
    refine ⟨?_, fun x hx => ?_⟩
    · simpa [List.foldl_cons] using le_trans ih1 hle
    · rcases List.mem_cons.mp hx with rfl | hx
      · simpa [List.foldl_cons] using le_trans ih1 hlea
      · simpa [List.foldl_cons] using ih2 x hx

theorem minByTotal_le {l : List HotelSummary} {w : HotelSummary}
    (hw : minByTotal l = some w) : ∀ x ∈ l, w.total ≤ x.total := by
  cases l with
  | nil => simp [minByTotal] at hw
  | cons h t =>
    simp only [minByTotal, Option.some.injEq] at hw
    subst hw
    intro x hx
    rcases List.mem_cons.mp hx with rfl | hx
    · exact (minFold_le t x).1
    · exact (minFold_le t h).2 x hx

theorem minByTotal_eq_none {l : List HotelSummary} : minByTotal l = none ↔ l = [] := by
  cases l <;> simp [minByTotal]

theorem stepDate_some_le (b0 : Best) (d : Int) (l : List HotelSummary) :
    ∃ b1, stepDate (some b0) d l = some b1 ∧ b1.total ≤ b0.total := by
  cases hmin : minByTotal l with
  | none => exact ⟨b0, by simp [stepDate, hmin], le_refl _⟩
  | some w =>
    by_cases hc : w.total < b0.total
    · exact ⟨mkBest d w, by simp [stepDate, hmin, hc], le_of_lt hc⟩
    · exact ⟨b0, by simp [stepDate, hmin, hc], le_refl _⟩

theorem stepDate_le_winner {st : Option Best} {d : Int} {l : List HotelSummary}
    {w : HotelSummary} (hmin : minByTotal l = some w) :
    ∃ b1, stepDate st d l = some b1 ∧ b1.total ≤ w.total := by
  cases st with
  | none => exact ⟨mkBest d w, by simp [stepDate, hmin], le_refl _⟩
  | some b0 =>
    by_cases hc : w.total < b0.total
    · exact ⟨mkBest d w, by simp [stepDate, hmin, hc], le_refl _⟩
    · exact ⟨b0, by simp [stepDate, hmin, hc], le_of_not_lt hc⟩

theorem pureScan_le (f : Int → List HotelSummary) :
    ∀ (dates : List Int) (st : Option Best) (b : Best),
    pureScan f dates st = some b →
    (∀ b0, st = some b0 → b.total ≤ b0.total) ∧
    (∀ d ∈ dates, ∀ x ∈ f d, b.total ≤ x.total) := by
  intro dates
  induction dates with
  | nil =>
    intro st b hb
    refine ⟨fun b0 h0 => ?_, by simp⟩
    rw [pureScan, h0] at hb
    cases hb
    exact le_refl _
  | cons d rest ih =>
    intro st b hb
    rw [pureScan] at hb
    constructor
    · intro b0 h0
      subst h0
      obtain ⟨b1, hstep, hle⟩ := stepDate_some_le b0 d (f d)
      rw [hstep] at hb
      exact le_trans ((ih _ b hb).1 b1 rfl) hle
    · intro d2 hd2 x hx
      rcases List.mem_cons.mp hd2 with rfl | hd2
      · cases hfd : minByTotal (f d2) with
        | none =>
          rw [minByTotal_eq_none.mp hfd] at hx
          simp at hx
        | some w =>
          obtain ⟨b1, hstep, hle⟩ := @stepDate_le_winner st d2 (f d2) w hfd
          rw [hstep] at hb
          exact le_trans (le_trans ((ih _ b hb).1 b1 rfl) hle) (minByTotal_le hfd x hx)
      · exact (ih _ b hb).2 d2 hd2 x hx

theorem pureScan_eq_winnersFold (f : Int → List HotelSummary) :
    ∀ (dates : List Int) (st : Option Best),
    pureScan f dates st = winnersFold st (dateWinners f dates) := by
  intro dates
  induction dates with
  | nil => intro st; cases st <;> rfl
  | cons d rest ih =>
    intro st
    rw [pureScan]
    cases hfd : minByTotal (f d) with
    | none =>
      have h1 : dateWinners f (d :: rest) = dateWinners f rest := by
        simp [dateWinners, List.filterMap_cons, hfd]
      have h2 : stepDate st d (f d) = st := by simp [stepDate, hfd]
      rw [h1, h2, ih]
    | some w =>
      have h1 : dateWinners f (d :: rest) = (d, w) :: dateWinners f rest := by
        simp [dateWinners, List.filterMap_cons, hfd]
      rw [h1, ih]
      cases st with
      | none =>
        rw [winnersFold]
        have h2 : stepDate none d (f d) = some (mkBest d w) := by simp [stepDate, hfd]
        rw [h2]
      | some b =>
        rw [winnersFold]
        have h2 : stepDate (some b) d (f d) =
            if w.total < b.total then some (mkBest d w) else some b := by
          simp [stepDate, hfd]
        rw [h2]

theorem winnersFold_append (l₁ l₂ : List (Int × HotelSummary)) : ∀ st,
    winnersFold st (l₁ ++ l₂) = winnersFold (winnersFold st l₁) l₂ := by
  induction l₁ with
  | nil => intro st; cases st <;> rfl
  | cons dw rest ih =>
    intro st
    cases st with
    | none => rw [List.cons_append, winnersFold, winnersFold, ih]
    | some b => rw [List.cons_append, winnersFold, winnersFold, ih]

theorem winnersFold_some_spec :
    ∀ (cands : List (Int × HotelSummary)) (b0 b : Best),
    winnersFold (some b0) cands = some b →
    (b = b0 ∧ ∀ dw ∈ cands, b0.total ≤ dw.2.total) ∨
    (∃ pre dw post, cands = pre ++ dw :: post ∧ b = mkBest dw.1 dw.2 ∧
      b.total < b0.total ∧ (∀ dw2 ∈ pre, b.total < dw2.2.total) ∧
      (∀ dw2 ∈ post, b.total ≤ dw2.2.total)) := by
  intro cands
  induction cands with
  | nil =>
    intro b0 b hb
    rw [winnersFold] at hb
    left
    exact ⟨(Option.some.inj hb).symm, by simp⟩
  | cons dw rest ih =>
    intro b0 b hb
    rw [winnersFold] at hb
    by_cases hc : dw.2.total < b0.total
    · rw [if_pos hc] at hb
      rcases ih (mkBest dw.1 dw.2) b hb with ⟨rfl, hall⟩ | ⟨pre, dw2, post, hcand, hbeq, hblt, hpre, hpost⟩
      · right
        exact ⟨[], dw, rest, rfl, rfl, hc, by simp, hall⟩
      · right
        refine ⟨dw :: pre, dw2, post, by rw [hcand]; rfl, hbeq, lt_trans hblt hc,
          fun dw3 hdw3 => ?_, hpost⟩
        rcases List.mem_cons.mp hdw3 with rfl | h3
        · exact hblt
        · exact hpre dw3 h3
    · rw [if_neg hc] at hb
      rcases ih b0 b hb with ⟨hbeq, hall⟩ | ⟨pre, dw2, post, hcand, hbeq, hblt, hpre, hpost⟩
      · left
        refine ⟨hbeq, fun dw3 hdw3 => ?_⟩
        rcases List.mem_cons.mp hdw3 with rfl | h3
        · exact le_of_not_lt hc
        · exact hall dw3 h3
      · right
        refine ⟨dw :: pre, dw2, post, by rw [hcand]; rfl, hbeq, hblt, fun dw3 hdw3 => ?_, hpost⟩
        rcases List.mem_cons.mp hdw3 with rfl | h3
        · exact lt_of_lt_of_le hblt (le_of_not_lt hc)
        · exact hpre dw3 h3

theorem winnersFold_none_spec {cands : List (Int × HotelSummary)} {b : Best}
    (hb : winnersFold none cands = some b) :
    ∃ pre dw post, cands = pre ++ dw :: post ∧ b = mkBest dw.1 dw.2 ∧
      (∀ dw2 ∈ pre, b.total < dw2.2.total) ∧ (∀ dw2 ∈ post, b.total ≤ dw2.2.total) := by
  cases cands with
  | nil => simp [winnersFold] at hb
  | cons dw rest =>
    rw [winnersFold] at hb
    rcases winnersFold_some_spec rest (mkBest dw.1 dw.2) b hb with ⟨rfl, hall⟩ |
      ⟨pre, dw2, post, hcand, hbeq, hblt, hpre, hpost⟩
    · exact ⟨[], dw, rest, rfl, rfl, by simp, hall⟩
    · refine ⟨dw :: pre, dw2, post, by rw [hcand]; rfl, hbeq, fun dw3 hdw3 => ?_, hpost⟩
      rcases List.mem_cons.mp hdw3 with rfl | h3
      · exact hblt
      · exact hpre dw3 h3

theorem coarseScan_pure (oracle : Int → List JValue) (f : Int → List HotelSummary) :
    ∀ (dates : List Int) (st : Option Best),
    (∀ d ∈ dates, scanDateCoarse (oracle d) [] = Except.ok (f d)) →
    coarseScan oracle dates st = Except.ok (pureScan f dates st) := by
  intro dates
  induction dates with
  | nil => intro st _; rfl
  | cons d rest ih =>
    intro st hok
    rw [coarseScan, hok d (List.mem_cons_self d rest)]
    exact ih (stepDate st d (f d)) (fun d2 h2 => hok d2 (List.mem_cons_of_mem d h2))

theorem refineScan_pure (oracle : Int → List JValue) (f : Int → List HotelSummary) :
    ∀ (dates : List Int) (st : Option Best),
    (∀ d ∈ dates, scanDateRefine (oracle d) [] = Except.ok (f d)) →
    refineScan oracle dates st = Except.ok (pureScan f dates st) := by
  intro dates
  induction dates with
  | nil => intro st _; rfl
  | cons d rest ih =>
    intro st hok
    rw [refineScan, hok d (List.mem_cons_self d rest)]
    exact ih (stepDate st d (f d)) (fun d2 h2 => hok d2 (List.mem_cons_of_mem d h2))

theorem placeSearch_pure (oracle oracleR : Int → List JValue)
    (f fR : Int → List HotelSummary) (cd : List Int) (N : Int)
    (h1 : ∀ d ∈ cd, scanDateCoarse (oracle d) [] = Except.ok (f d))
    (h2 : ∀ d, scanDateRefine (oracleR d) [] = Except.ok (fR d)) :
    placeSearch oracle oracleR cd N = Except.ok (purePlace f fR cd N) := by
  unfold placeSearch purePlace
  rw [coarseScan_pure oracle f cd none h1]
  cases hps : pureScan f cd none with
  | none => rfl
  | some b0 => exact refineScan_pure oracleR fR _ (some b0) (fun d _ => h2 d)

/-- C1 (code bug): a `None` collaborator response is skipped in the coarse
scan (the batch is dropped and the loop continues), but the refinement scan
has no `None` check: the response reaches `parse_search_response`, whose
`resp.get` on `None` raises AttributeError, aborting the run instead of
skipping the date. -/
theorem C1_refine_none_raises :
    parse_search_response JValue.null = Except.error () ∧
    (∀ (resps : List JValue) (acc : List HotelSummary),
       scanDateCoarse (JValue.null :: resps) acc = scanDateCoarse resps acc) ∧
    scanDateRefine [JValue.null] [] = Except.error () ∧
    refineScan (fun _ => [JValue.null]) [0] (some wB) = Except.error () ∧
    coarseScan (fun _ => [JValue.null]) [0] none = Except.ok none :=
  ⟨rfl, fun _ _ => rfl, rfl, rfl, rfl⟩

/-- C2: every per-date winner is no more expensive than any summary of that
date; the final best is no more expensive than any summary seen on any coarse
or refinement date; and the final best is the first per-date winner (in scan
order, coarse before refinement) attaining the global minimum — every earlier
per-date winner is strictly more expensive, every later one at least as
expensive. -/
theorem C2_winner_and_global_min (f fR : Int → List HotelSummary) (cd : List Int)
    (N : Int) (b0 b : Best)
    (h0 : pureScan f cd none = some b0)
    (h : purePlace f fR cd N = some b) :
    (∀ (l : List HotelSummary) (w : HotelSummary), minByTotal l = some w →
       ∀ x ∈ l, w.total ≤ x.total) ∧
    (∀ d ∈ cd, ∀ x ∈ f d, b.total ≤ x.total) ∧
    (∀ d ∈ date_range (b0.checkIn - N) (b0.checkIn + N), ∀ x ∈ fR d, b.total ≤ x.total) ∧
    (∃ pre dw post,
       dateWinners f cd ++ dateWinners fR (date_range (b0.checkIn - N) (b0.checkIn + N)) =
         pre ++ dw :: post ∧
       b = mkBest dw.1 dw.2 ∧ (∀ dw2 ∈ pre, b.total < dw2.2.total) ∧
       (∀ dw2 ∈ post, b.total ≤ dw2.2.total)) := by
  have hrefine : pureScan fR (date_range (b0.checkIn - N) (b0.checkIn + N)) (some b0) = some b := by
    unfold purePlace at h
    rw [h0] at h
    exact h
  refine ⟨fun l w hw => minByTotal_le hw, fun d hd x hx => ?_, fun d hd x hx => ?_, ?_⟩
  · have hb0 : b.total ≤ b0.total := (pureScan_le fR _ _ b hrefine).1 b0 rfl
    exact le_trans hb0 ((pureScan_le f cd none b0 h0).2 d hd x hx)
  · exact (pureScan_le fR _ _ b hrefine).2 d hd x hx
  · have hcomb : winnersFold none
        (dateWinners f cd ++ dateWinners fR (date_range (b0.checkIn - N) (b0.checkIn + N))) =
        some b := by
      rw [winnersFold_append, ← pureScan_eq_winnersFold f cd none, h0,
        ← pureScan_eq_winnersFold fR (date_range (b0.checkIn - N) (b0.checkIn + N)) (some b0)]
      exact hrefine
    exact winnersFold_none_spec hcomb

/-- C2 witness: one coarse date with one 150-total summary and an empty
refinement window oracle. -/
theorem C2_winner_and_global_min_witness :
    (∀ (l : List HotelSummary) (w : HotelSummary), minByTotal l = some w →
       ∀ x ∈ l, w.total ≤ x.total) ∧
    (∀ d ∈ [(1 : Int)], ∀ x ∈ wF d, wB.total ≤ x.total) ∧
    (∀ d ∈ date_range (wB.checkIn - 0) (wB.checkIn + 0), ∀ x ∈ wFe d, wB.total ≤ x.total) ∧
    (∃ pre dw post,
       dateWinners wF [(1 : Int)] ++ dateWinners wFe (date_range (wB.checkIn - 0) (wB.checkIn + 0)) =
         pre ++ dw :: post ∧
       wB = mkBest dw.1 dw.2 ∧ (∀ dw2 ∈ pre, wB.total < dw2.2.total) ∧
       (∀ dw2 ∈ post, wB.total ≤ dw2.2.total)) :=
  C2_winner_and_global_min wF wFe [1] 0 wB wB rfl rfl

/-- C3: the final best-for-place total after refinement is at most the best
total after the coarse scan alone: refinement never worsens the answer. -/
theorem C3_refine_never_worse (f fR : Int → List HotelSummary) (cd : List Int)
    (N : Int) (b0 b : Best)
    (h0 : pureScan f cd none = some b0)
    (h : purePlace f fR cd N = some b) :
    b.total ≤ b0.total := by
  have hrefine : pureScan fR (date_range (b0.checkIn - N) (b0.checkIn + N)) (some b0) = some b := by
    unfold purePlace at h
    rw [h0] at h
    exact h
  exact (pureScan_le fR _ _ b hrefine).1 b0 rfl

/-- C3 witness. -/
theorem C3_refine_never_worse_witness : wB.total ≤ wB.total :=
  C3_refine_never_worse wF wFe [1] 0 wB wB rfl rfl

/-- C4: when the coarse scan found no winner, refinement is skipped and no
result is produced; when it found a winner with date d0, refinement runs
exactly once over exactly the dates d0−N .. d0+N — every single consecutive
day of the symmetric window (2N+1 dates), with no weekday filtering and no
deduplication against the already-scanned coarse dates. -/
theorem C4_refinement_window (f fR : Int → List HotelSummary) (cd : List Int) (N : Int) :
    (pureScan f cd none = none → purePlace f fR cd N = none) ∧
    (∀ b0, pureScan f cd none = some b0 →
       purePlace f fR cd N =
         pureScan fR (date_range (b0.checkIn - N) (b0.checkIn + N)) (some b0)) ∧
    (∀ (d0 d : Int), d ∈ date_range (d0 - N) (d0 + N) ↔ d0 - N ≤ d ∧ d ≤ d0 + N) ∧
    (∀ d0 : Int, (date_range (d0 - N) (d0 + N)).length = (2 * N + 1).toNat) := by
  refine ⟨fun h0 => ?_, fun b0 h0 => ?_, fun d0 d => mem_date_range, fun d0 => ?_⟩
  · unfold purePlace
    rw [h0]
  · unfold purePlace
    rw [h0]
  · rw [length_date_range]
    omega

/-- C4 witness: an empty coarse window yields no winner and no result; the
one-date scenario refines over the window around date 1. -/
theorem C4_refinement_window_witness :
    purePlace wFe wFe [] 5 = none ∧
    purePlace wF wFe [(1 : Int)] 0 =
      pureScan wFe (date_range (wB.checkIn - 0) (wB.checkIn + 0)) (some wB) :=
  ⟨(C4_refinement_window wFe wFe [] 5).1 rfl,
   (C4_refinement_window wF wFe [1] 0).2.1 wB rfl⟩

theorem processHotel_ok_iff {h : JValue} :
    (∃ s, processHotel h = Except.ok s) ↔ (pyIter (extractOffers h)).isSome = true := by
  unfold processHotel
  cases pyIter (extractOffers h) <;> simp

theorem processHotel_opt {h : JValue} {s : Option HotelSummary}
    (hok : processHotel h = Except.ok s) : processHotelOpt h = s := by
  unfold processHotelOpt
  rw [hok]

theorem parseHotels_ok (hotels : List JValue) :
    ∀ out, (∀ h ∈ hotels, (pyIter (extractOffers h)).isSome = true) →
    parseHotels hotels out = Except.ok (out ++ hotels.filterMap processHotelOpt) := by
  induction hotels with
  | nil => intro out _; simp [parseHotels]
  | cons h t ih =>
    intro out hall
    obtain ⟨s, hs⟩ := processHotel_ok_iff.mpr (hall h (List.mem_cons_self h t))
    have hopt := processHotel_opt hs
    cases s with
    | none =>
      have heq : parseHotels (h :: t) out = parseHotels t out := by
        rw [parseHotels, hs]
      rw [heq, ih out (fun h2 ht => hall h2 (List.mem_cons_of_mem h ht))]
      rw [List.filterMap_cons, hopt]
    | some x =>
      have heq : parseHotels (h :: t) out = parseHotels t (out ++ [x]) := by
        rw [parseHotels, hs]
      rw [heq, ih (out ++ [x]) (fun h2 ht => hall h2 (List.mem_cons_of_mem h ht))]
      rw [List.filterMap_cons, hopt]
      simp

theorem parseHotels_ok_iff (hotels : List JValue) :
    ∀ out, (∃ l, parseHotels hotels out = Except.ok l) ↔
      ∀ h ∈ hotels, (pyIter (extractOffers h)).isSome = true := by
  induction hotels with
  | nil => intro out; simp [parseHotels]
  | cons h t ih =>
    intro out
    cases hs : processHotel h with
    | error e =>
      have hend : parseHotels (h :: t) out = Except.error e := by rw [parseHotels, hs]
      constructor
      · rintro ⟨l, hl⟩
        rw [hend] at hl
        cases hl
      · intro hall
        obtain ⟨s, hs2⟩ := processHotel_ok_iff.mpr (hall h (List.mem_cons_self h t))
        rw [hs] at hs2
        cases hs2
    | ok s =>
      have hsome : (pyIter (extractOffers h)).isSome = true := processHotel_ok_iff.mp ⟨s, hs⟩
      cases s with
      | none =>
        have hend : parseHotels (h :: t) out = parseHotels t out := by rw [parseHotels, hs]
        rw [hend, ih out]
        constructor
        · intro hall h2 hh2
          rcases List.mem_cons.mp hh2 with rfl | hh2
          · exact hsome
          · exact hall h2 hh2
        · intro hall h2 hh2
          exact hall h2 (List.mem_cons_of_mem h hh2)
      | some x =>
        have hend : parseHotels (h :: t) out = parseHotels t (out ++ [x]) := by
          rw [parseHotels, hs]
        rw [hend, ih (out ++ [x])]
        constructor
        · intro hall h2 hh2
          rcases List.mem_cons.mp hh2 with rfl | hh2
          · exact hsome
          · exact hall h2 hh2
        · intro hall h2 hh2
          exact hall h2 (List.mem_cons_of_mem h hh2)

theorem bestStep_of_some (b : ℚ × JValue × JValue) (off : JValue) :
    ∃ b2, bestStep (some b) off = some b2 := by
  unfold bestStep
  cases summarize_offer_price off with
  | none => exact ⟨b, rfl⟩
  | some tc =>
    by_cases hc : tc.1 < b.1
    · exact ⟨(tc.1, tc.2, offId off), by simp [hc]⟩
    · exact ⟨b, by simp [hc]⟩

theorem foldl_bestStep_some (offs : List JValue) : ∀ b,
    ∃ b2, offs.foldl bestStep (some b) = some b2 := by
  induction offs with
  | nil => exact fun b => ⟨b, rfl⟩
  | cons off t ih =>
    intro b
    rw [List.foldl_cons]
    obtain ⟨b2, hb2⟩ := bestStep_of_some b off
    rw [hb2]
    exact ih b2

theorem bestOffer_none_iff (offs : List JValue) :
    bestOffer offs = none ↔ ∀ off ∈ offs, summarize_offer_price off = none := by
  unfold bestOffer
  induction offs with
  | nil => simp
  | cons off t ih =>
    rw [List.foldl_cons]
    cases hs : summarize_offer_price off with
    | none =>
      have h1 : bestStep none off = none := by simp [bestStep, hs]
      rw [h1, ih]
      constructor
      · intro hall off2 h2
        rcases List.mem_cons.mp h2 with rfl | h2
        · exact hs
        · exact hall off2 h2
      · intro hall off2 h2
        exact hall off2 (List.mem_cons_of_mem off h2)
    | some tc =>
      have h1 : bestStep none off = some (tc.1, tc.2, offId off) := by simp [bestStep, hs]
      rw [h1]
      obtain ⟨b2, hb2⟩ := foldl_bestStep_some t (tc.1, tc.2, offId off)
      rw [hb2]
      constructor
      · intro hcon
        exact absurd hcon (by simp)
      · intro hall
        have h2 := hall off (List.mem_cons_self off t)
        simp [h2] at hs

theorem bestOffer_skip (l₁ l₂ : List JValue) (off : JValue)
    (hnone : summarize_offer_price off = none) :
    bestOffer (l₁ ++ off :: l₂) = bestOffer (l₁ ++ l₂) := by
  unfold bestOffer
  rw [List.foldl_append, List.foldl_append, List.foldl_cons]
  have h1 : bestStep (l₁.foldl bestStep none) off = l₁.foldl bestStep none := by
    unfold bestStep
    rw [hnone]
  rw [h1]

theorem processHotel_none_iff {hotel : JValue} {offs : List JValue}
    (hoffs : pyIter (extractOffers hotel) = some offs) :
    processHotel hotel = Except.ok none ↔ bestOffer offs = none := by
  have hsplit : processHotel hotel =
      Except.ok ((bestOffer offs).map (fun b =>
        ⟨(extractIdName hotel).1, (extractIdName hotel).2, b.2.2, b.1, b.2.1⟩)) := by
    unfold processHotel
    rw [hoffs]
  constructor
  · intro h
    by_contra hne
    obtain ⟨b, hb⟩ := Option.ne_none_iff_exists'.mp hne
    rw [hsplit, hb] at h
    simp at h
  · intro h
    rw [hsplit, h]
    rfl

theorem extractIdName_no_hotel {kvs : List (String × JValue)}
    (h : kvs.lookup "hotel" = none) :
    extractIdName (JValue.obj kvs) = (JValue.null, JValue.null) := by
  simp [extractIdName, pyGet, h]

theorem extractIdName_missing_id {kvs inner : List (String × JValue)}
    (h : kvs.lookup "hotel" = some (JValue.obj inner))
    (hid : inner.lookup "hotelId" = none) :
    (extractIdName (JValue.obj kvs)).1 = JValue.null := by
  simp [extractIdName, pyGet, h, hid]

theorem extractIdName_missing_name {kvs inner : List (String × JValue)}
    (h : kvs.lookup "hotel" = some (JValue.obj inner))
    (hname : inner.lookup "name" = none) :
    (extractIdName (JValue.obj kvs)).2 = JValue.null := by
  simp [extractIdName, pyGet, h, hname]

/-- C10 counterexample: the claim says parsing is total for every
dictionary-shaped response, but the dictionary response `{"data": null}`
makes `parse_search_response` iterate over `None` — an uncaught TypeError
(the run aborts), modelled by `Except.error`. -/
theorem C10_counterexample :
    parse_search_response (JValue.obj [("data", JValue.null)]) = Except.error () := rfl

/-- C10 (amended): for a dictionary-shaped response, parsing succeeds exactly
when the `data` value (defaulted to the empty list) is iterable and every
hotel entry's `offers` value (defaulted to the empty list; non-dict entries
contribute the empty list) is iterable — on such input it is total and never
raises, and the output lists the per-hotel summaries in order; an offer whose
price extraction fails (missing price/total/currency or a total that does not
convert to a number) is silently skipped; a hotel with no parseable priced
offer is omitted from the output entirely; a hotel record without a `hotel`
field, or whose `hotel` object lacks `hotelId` or `name`, gets the absent
(None) marker for those fields rather than an error. -/
theorem C10_parse_amended :
    (∀ kvs : List (String × JValue),
       (∃ l, parse_search_response (JValue.obj kvs) = Except.ok l) ↔
       ∃ hotels, pyIter ((kvs.lookup "data").getD (JValue.arr [])) = some hotels ∧
         ∀ h ∈ hotels, (pyIter (extractOffers h)).isSome = true) ∧
    (∀ (kvs : List (String × JValue)) (hotels : List JValue),
       pyIter ((kvs.lookup "data").getD (JValue.arr [])) = some hotels →
       (∀ h ∈ hotels, (pyIter (extractOffers h)).isSome = true) →
       parse_search_response (JValue.obj kvs) = Except.ok (hotels.filterMap processHotelOpt)) ∧
    (∀ (l₁ l₂ : List JValue) (off : JValue), summarize_offer_price off = none →
       bestOffer (l₁ ++ off :: l₂) = bestOffer (l₁ ++ l₂)) ∧
    (∀ offs : List JValue,
       bestOffer offs = none ↔ ∀ off ∈ offs, summarize_offer_price off = none) ∧
    (∀ (hotel : JValue) (offs : List JValue), pyIter (extractOffers hotel) = some offs →
       (processHotel hotel = Except.ok none ↔ bestOffer offs = none)) ∧
    (∀ hotel : JValue, processHotel hotel = Except.ok none → processHotelOpt hotel = none) ∧
    (∀ kvs : List (String × JValue), kvs.lookup "hotel" = none →
       extractIdName (JValue.obj kvs) = (JValue.null, JValue.null)) ∧
    (∀ (kvs inner : List (String × JValue)), kvs.lookup "hotel" = some (JValue.obj inner) →
       inner.lookup "hotelId" = none → (extractIdName (JValue.obj kvs)).1 = JValue.null) ∧
    (∀ (kvs inner : List (String × JValue)), kvs.lookup "hotel" = some (JValue.obj inner) →
       inner.lookup "name" = none → (extractIdName (JValue.obj kvs)).2 = JValue.null) := by
  refine ⟨fun kvs => ?_, fun kvs hotels hd hall => ?_,
    fun l₁ l₂ off h => bestOffer_skip l₁ l₂ off h, fun offs => bestOffer_none_iff offs,
    fun hotel offs hoffs => processHotel_none_iff hoffs,
    fun hotel h => processHotel_opt h,
    fun kvs h => extractIdName_no_hotel h,
    fun kvs inner h hid => extractIdName_missing_id h hid,
    fun kvs inner h hname => extractIdName_missing_name h hname⟩
  · have hsplit : parse_search_response (JValue.obj kvs) =
        (match pyIter ((kvs.lookup "data").getD (JValue.arr [])) with
         | none => Except.error ()
         | some hotels => parseHotels hotels []) := rfl
    rw [hsplit]
    cases hd : pyIter ((kvs.lookup "data").getD (JValue.arr [])) with
    | none => simp
    | some hotels => simp [parseHotels_ok_iff hotels []]
  · have hsplit : parse_search_response (JValue.obj kvs) =
        (match pyIter ((kvs.lookup "data").getD (JValue.arr [])) with
         | none => Except.error ()
         | some hotels2 => parseHotels hotels2 []) := rfl
    rw [hsplit, hd]
    exact parseHotels_ok hotels [] hall

/-- C10 witness: a data list with a single hotel holding a single offer whose
price total is the non-numeric string "abc": parsing succeeds, the offer is
skipped and the hotel is omitted. -/
theorem C10_parse_amended_witness :
    parse_search_response (JValue.obj [("data", JValue.arr [JValue.obj [("offers",
      JValue.arr [JValue.obj [("price", JValue.obj [("total", JValue.str "abc"),
        ("currency", JValue.str "EUR")])]])]])]) = Except.ok [] ∧
    bestOffer ([] ++ JValue.obj [("price", JValue.obj [("total", JValue.str "abc"),
      ("currency", JValue.str "EUR")])] :: []) = bestOffer ([] ++ []) :=
  ⟨C10_parse_amended.2.1 [("data", JValue.arr [JValue.obj [("offers",
      JValue.arr [JValue.obj [("price", JValue.obj [("total", JValue.str "abc"),
        ("currency", JValue.str "EUR")])]])]])]
      [JValue.obj [("offers", JValue.arr [JValue.obj [("price",
        JValue.obj [("total", JValue.str "abc"), ("currency", JValue.str "EUR")])]])]]
      rfl (fun h hh => by rw [List.mem_singleton.mp hh]; rfl),
   C10_parse_amended.2.2.1 [] [] (JValue.obj [("price", JValue.obj [("total",
     JValue.str "abc"), ("currency", JValue.str "EUR")])]) rfl⟩

end Travelbee

